import Mathlib

/-!
Verification development for the CasADi SQP solver core
(`nonlinear_programming/sqp_internal.cpp`) and the MX `Evaluation` node
(`casadi/mx/evaluation.cpp`).

The C++ double arithmetic is modelled over `ℚ` (exact arithmetic); machine
vectors become `Fin n → ℚ` or `List ℚ`; the external collaborators
(objective, constraints, their derivatives, the QP subsolver, the user
callback) are opaque callables in the source and are modelled as oracle
records.  Loops with early exits are modelled by structural recursion on an
explicit fuel, matching the loop bounds of the source.
-/

/- ===================================================================
   Vector and matrix primitives over ℚ (mirroring the DMatrix helpers
   `inner_prod`, `mul`, `norm_1` used by sqp_internal.cpp)
   =================================================================== -/

/-- `inner_prod(a, b)`: sum of componentwise products. -/
def inner_prod (a b : List ℚ) : ℚ := (List.zipWith (fun x y => x * y) a b).sum

/-- `mul(B, s)`: dense matrix-vector product, row-wise inner products. -/
def matmulv (B : List (List ℚ)) (s : List ℚ) : List ℚ :=
  B.map (fun row => inner_prod row s)

lemma inner_prod_nil (b : List ℚ) : inner_prod [] b = 0 := rfl

lemma inner_prod_cons (x y : ℚ) (a b : List ℚ) :
    inner_prod (x :: a) (y :: b) = x * y + inner_prod a b := by
  simp [inner_prod, List.zipWith]

lemma inner_prod_comm : ∀ (a b : List ℚ), inner_prod a b = inner_prod b a := by
  intro a
  induction a with
  | nil => intro b; cases b <;> rfl
  | cons x a ih =>
    intro b
    cases b with
    | nil => rfl
    | cons y b => rw [inner_prod_cons, inner_prod_cons, mul_comm, ih]

lemma inner_prod_comb (ω : ℚ) :
    ∀ (a b c : List ℚ), b.length = a.length → c.length = a.length →
      inner_prod a (List.zipWith (fun y q => ω * y + (1 - ω) * q) b c) =
        ω * inner_prod a b + (1 - ω) * inner_prod a c := by
  intro a
  induction a with
  | nil =>
    intro b c hb hc
    rw [List.length_nil, List.length_eq_zero] at hb hc
    subst hb; subst hc
    simp [inner_prod]
  | cons x a ih =>
    intro b c hb hc
    cases b with
    | nil => simp at hb
    | cons y b =>
      cases c with
      | nil => simp at hc
      | cons q c =>
        simp only [List.length_cons, Nat.succ.injEq] at hb hc
        simp only [List.zipWith]
        rw [inner_prod_cons, inner_prod_cons, inner_prod_cons, ih b c hb hc]
        ring

/- ===================================================================
   Component B, L-BFGS mode: Powell damping
   (sqp_internal.cpp lines 479-497)

     double omega = 1.;
     if (inner_prod(yk, sk).at(0) < 0.2 * inner_prod(sk, qk).at(0) ){
       double skBksk = inner_prod(sk, qk).at(0);
       omega = 0.8 * skBksk / (skBksk - inner_prod(sk, yk).at(0));
     }
     yk = omega * yk + (1 - omega) * qk;
   with qk = mul(Bk, sk).
   =================================================================== -/

/-- The damping factor `omega` computed by the source. -/
def bfgsOmega (sk yk qk : List ℚ) : ℚ :=
  if inner_prod yk sk < 1/5 * inner_prod sk qk then
    4/5 * inner_prod sk qk / (inner_prod sk qk - inner_prod sk yk)
  else 1

/-- The damped difference vector `yk := omega * yk + (1 - omega) * qk`. -/
def bfgsDampedY (sk yk qk : List ℚ) : List ℚ :=
  List.zipWith (fun y q => bfgsOmega sk yk qk * y + (1 - bfgsOmega sk yk qk) * q) yk qk

/-- C2 counterexample: with `B = [[1]]`, `s = [1]`, `y = [-1]` we have
`sᵀBs = 1 > 0` but the computed damping factor is `2/5`, outside the
claimed interval `[0.8, 1]`. -/
theorem lbfgs_omega_range_cex :
    0 < inner_prod [(1:ℚ)] (matmulv [[(1:ℚ)]] [(1:ℚ)]) ∧
    bfgsOmega [(1:ℚ)] [(-1:ℚ)] (matmulv [[(1:ℚ)]] [(1:ℚ)]) = 2/5 ∧
    ¬ ((4:ℚ)/5 ≤ bfgsOmega [(1:ℚ)] [(-1:ℚ)] (matmulv [[(1:ℚ)]] [(1:ℚ)])) := by
  refine ⟨by norm_num [inner_prod, matmulv], ?_, ?_⟩ <;>
    norm_num [bfgsOmega, inner_prod, matmulv]

/-- C2 (amended): in L-BFGS mode, for an update step with `sᵀBs > 0`
(`q = B·s`), the Powell damping factor satisfies `omega ∈ (0, 1]` (not
`[0.8, 1]`: for `sᵀy < 0` the factor drops below `0.8`), and the damped
curvature `sᵀy_damped` is strictly positive. -/
theorem lbfgs_damping_bounds (Bk : List (List ℚ)) (sk yk : List ℚ)
    (hly : yk.length = sk.length) (hlq : (matmulv Bk sk).length = sk.length)
    (hpos : 0 < inner_prod sk (matmulv Bk sk)) :
    (0 < bfgsOmega sk yk (matmulv Bk sk) ∧ bfgsOmega sk yk (matmulv Bk sk) ≤ 1) ∧
    0 < inner_prod sk (bfgsDampedY sk yk (matmulv Bk sk)) := by
  set q := matmulv Bk sk with hq
  have hcomb : inner_prod sk (bfgsDampedY sk yk q) =
      bfgsOmega sk yk q * inner_prod sk yk + (1 - bfgsOmega sk yk q) * inner_prod sk q := by
    unfold bfgsDampedY
    exact inner_prod_comb _ _ _ _ hly hlq
  have hys : inner_prod yk sk = inner_prod sk yk := inner_prod_comm yk sk
  by_cases h : inner_prod yk sk < 1/5 * inner_prod sk q
  · have homega : bfgsOmega sk yk q =
        4/5 * inner_prod sk q / (inner_prod sk q - inner_prod sk yk) := by
      unfold bfgsOmega; rw [if_pos h]
    have hsy : inner_prod sk yk < 1/5 * inner_prod sk q := by rw [← hys]; exact h
    have hden : 0 < inner_prod sk q - inner_prod sk yk := by nlinarith
    have hnum : 0 < 4/5 * inner_prod sk q := by nlinarith
    have h01 : 0 < bfgsOmega sk yk q := by rw [homega]; exact div_pos hnum hden
    have h1 : bfgsOmega sk yk q ≤ 1 := by
      rw [homega, div_le_one hden]; nlinarith
    refine ⟨⟨h01, h1⟩, ?_⟩
    have hkey : bfgsOmega sk yk q * (inner_prod sk yk - inner_prod sk q) =
        -(4/5) * inner_prod sk q := by
      rw [homega]
      have hne : inner_prod sk q - inner_prod sk yk ≠ 0 := ne_of_gt hden
      field_simp
      ring
    have heq : bfgsOmega sk yk q * inner_prod sk yk +
        (1 - bfgsOmega sk yk q) * inner_prod sk q = 1/5 * inner_prod sk q := by
      linear_combination hkey
    rw [hcomb, heq]
    linarith
  · have homega : bfgsOmega sk yk q = 1 := by unfold bfgsOmega; rw [if_neg h]
    have hsy : 1/5 * inner_prod sk q ≤ inner_prod sk yk := by
      rw [← hys]; exact le_of_not_lt h
    refine ⟨⟨by rw [homega]; norm_num, by rw [homega]⟩, ?_⟩
    rw [hcomb, homega]
    nlinarith

/-- C2 witness: a concrete damped update with `sᵀBs > 0`. -/
theorem lbfgs_damping_bounds_witness :
    ([(-1:ℚ)].length = [(1:ℚ)].length ∧
     (matmulv [[(1:ℚ)]] [(1:ℚ)]).length = [(1:ℚ)].length ∧
     0 < inner_prod [(1:ℚ)] (matmulv [[(1:ℚ)]] [(1:ℚ)])) ∧
    ((0 < bfgsOmega [(1:ℚ)] [(-1:ℚ)] (matmulv [[(1:ℚ)]] [(1:ℚ)]) ∧
      bfgsOmega [(1:ℚ)] [(-1:ℚ)] (matmulv [[(1:ℚ)]] [(1:ℚ)]) ≤ 1) ∧
     0 < inner_prod [(1:ℚ)] (bfgsDampedY [(1:ℚ)] [(-1:ℚ)] (matmulv [[(1:ℚ)]] [(1:ℚ)]))) :=
  ⟨⟨rfl, rfl, by norm_num [inner_prod, matmulv]⟩,
   lbfgs_damping_bounds [[(1:ℚ)]] [(1:ℚ)] [(-1:ℚ)] rfl rfl
     (by norm_num [inner_prod, matmulv])⟩

/- ===================================================================
   Component B, exact mode: Gershgorin regularization
   (sqp_internal.cpp lines 209-238)

     double reg_param = 0;
     for each row i:
       radius = sum over j != i of fabs(B(i,j));
       mineig = B(i,i) - radius;
       if (mineig < reg_param) reg_param = mineig;
     if (reg_param < 0) Bk += -reg_param * eye; else Bk += 0 * eye;

   The matrix is modelled densely (absent sparsity entries are zeros and
   contribute |0| = 0 to the radius, as in the CRS loop).
   =================================================================== -/

/-- Gershgorin radius of row `i`: off-diagonal absolute row sum. -/
def gershRadius {n : ℕ} (B : Fin n → Fin n → ℚ) (i : Fin n) : ℚ :=
  (List.finRange n).foldl (fun a j => if i ≠ j then a + |B i j| else a) 0

/-- `mineig` of row `i`: the Gershgorin lower eigenvalue bound `B_ii - r_i`. -/
def gershBound {n : ℕ} (B : Fin n → Fin n → ℚ) (i : Fin n) : ℚ :=
  B i i - gershRadius B i

/-- The accumulated `reg_param`: min of 0 and all row bounds, via the
source's sequential fold starting at 0. -/
def regParam {n : ℕ} (B : Fin n → Fin n → ℚ) : ℚ :=
  (List.finRange n).foldl (fun r i => if gershBound B i < r then gershBound B i else r) 0

/-- The regularized Hessian: `B + (-reg_param) * I` when `reg_param < 0`,
otherwise `B` (the source adds `0 * eye`, which leaves all values
unchanged). -/
def regularize {n : ℕ} (B : Fin n → Fin n → ℚ) : Fin n → Fin n → ℚ :=
  if regParam B < 0 then (fun i j => B i j + (if i = j then -(regParam B) else 0)) else B

lemma foldl_min_le_init (g : α → ℚ) :
    ∀ (l : List α) (r : ℚ), l.foldl (fun r i => if g i < r then g i else r) r ≤ r := by
  intro l
  induction l with
  | nil => intro r; simp
  | cons a l ih =>
    intro r
    refine le_trans (ih _) ?_
    show (if g a < r then g a else r) ≤ r
    by_cases h : g a < r
    · rw [if_pos h]; exact le_of_lt h
    · rw [if_neg h]

lemma foldl_min_le_mem (g : α → ℚ) :
    ∀ (l : List α) (r : ℚ) (i : α), i ∈ l →
      l.foldl (fun r i => if g i < r then g i else r) r ≤ g i := by
  intro l
  induction l with
  | nil => intro r i h; simp at h
  | cons a l ih =>
    intro r i h
    rcases List.mem_cons.mp h with h | h
    · subst h
      refine le_trans (foldl_min_le_init g l _) ?_
      show (if g i < r then g i else r) ≤ g i
      by_cases hc : g i < r
      · rw [if_pos hc]
      · rw [if_neg hc]; exact le_of_not_lt hc
    · exact ih _ i h

lemma foldl_min_cases (g : α → ℚ) :
    ∀ (l : List α) (r : ℚ),
      l.foldl (fun r i => if g i < r then g i else r) r = r ∨
      ∃ i ∈ l, l.foldl (fun r i => if g i < r then g i else r) r = g i := by
  intro l
  induction l with
  | nil => intro r; left; rfl
  | cons a l ih =>
    intro r
    rcases ih (if g a < r then g a else r) with h | ⟨i, hi, h⟩
    · by_cases hc : g a < r
      · right
        exact ⟨a, List.mem_cons_self a l, by simpa [hc] using h⟩
      · left
        simpa [hc] using h
    · right
      exact ⟨i, List.mem_cons_of_mem a hi, h⟩

lemma gershRadius_shift {n : ℕ} (B : Fin n → Fin n → ℚ) (c : ℚ) (i : Fin n) :
    gershRadius (fun i' j => B i' j + (if i' = j then c else 0)) i = gershRadius B i := by
  unfold gershRadius
  have hf : (fun (a : ℚ) (j : Fin n) =>
        if i ≠ j then a + |B i j + (if i = j then c else 0)| else a) =
      (fun (a : ℚ) (j : Fin n) => if i ≠ j then a + |B i j| else a) := by
    funext a j
    by_cases h : i = j
    · simp [h]
    · simp [h]
  rw [hf]

/-- C3: in exact-Hessian mode with `regularize` enabled, with `τ` the
minimum over rows of the Gershgorin lower bound `λ_i = B_ii − r_i`, the
regularization adds `(−τ)·I` exactly when `τ < 0` and leaves `B`
unchanged otherwise; afterwards every row's Gershgorin lower bound is
nonnegative. -/
theorem exact_regularization_gershgorin {n : ℕ} (B : Fin n → Fin n → ℚ) (τ : ℚ)
    (hatt : ∃ i, gershBound B i = τ) (hlb : ∀ i, τ ≤ gershBound B i) :
    ((τ < 0 → regularize B = fun i j => B i j + (if i = j then -τ else 0)) ∧
     (0 ≤ τ → regularize B = B)) ∧
    (∀ i, 0 ≤ gershBound (regularize B) i) := by
  obtain ⟨i0, hi0⟩ := hatt
  have h1 : regParam B ≤ 0 := foldl_min_le_init _ _ _
  have h2 : regParam B ≤ τ := by
    rw [← hi0]
    exact foldl_min_le_mem _ _ _ i0 (List.mem_finRange i0)
  have h3 := foldl_min_cases (gershBound B) (List.finRange n) 0
  have hneg : τ < 0 → regParam B = τ := by
    intro hτ
    refine le_antisymm h2 ?_
    rcases h3 with h | ⟨i, _, h⟩
    · rw [regParam, h]; exact le_of_lt hτ
    · rw [regParam, h]; exact hlb i
  have hpos : 0 ≤ τ → regParam B = 0 := by
    intro hτ
    refine le_antisymm h1 ?_
    rcases h3 with h | ⟨i, _, h⟩
    · rw [regParam, h]
    · rw [regParam, h]; exact le_trans hτ (hlb i)
  constructor
  · constructor
    · intro hτ
      unfold regularize
      rw [if_pos (by rw [hneg hτ]; exact hτ), hneg hτ]
    · intro hτ
      unfold regularize
      rw [if_neg (by rw [hpos hτ]; exact lt_irrefl 0)]
  · intro i
    by_cases hτ : τ < 0
    · have hreg : regularize B = fun i j => B i j + (if i = j then -τ else 0) := by
        unfold regularize
        rw [if_pos (by rw [hneg hτ]; exact hτ), hneg hτ]
      rw [hreg]
      unfold gershBound
      rw [gershRadius_shift B (-τ) i]
      show 0 ≤ B i i + (if i = i then -τ else 0) - gershRadius B i
      rw [if_pos rfl]
      have := hlb i
      unfold gershBound at this
      linarith
    · have hreg : regularize B = B := by
        unfold regularize
        rw [if_neg (by rw [hpos (le_of_not_lt hτ)]; exact lt_irrefl 0)]
      rw [hreg]
      exact le_trans (le_of_not_lt hτ) (hlb i)

/-- The concrete 1×1 matrix `[[-2]]` used as the C3 witness input. -/
def exB3 : Fin 1 → Fin 1 → ℚ := fun _ _ => -2

/-- C3 witness: regularizing `[[-2]]` (whose Gershgorin bound is `-2`). -/
theorem exact_regularization_gershgorin_witness :
    ((∃ i, gershBound exB3 i = -2) ∧ (∀ i, (-2:ℚ) ≤ gershBound exB3 i)) ∧
    (((-2:ℚ) < 0 → regularize exB3 = fun i j => exB3 i j + (if i = j then -(-2:ℚ) else 0)) ∧
     ((0:ℚ) ≤ -2 → regularize exB3 = exB3)) ∧
    (∀ i, 0 ≤ gershBound (regularize exB3) i) := by
  have hval : gershBound exB3 0 = -2 := by
    norm_num [gershBound, gershRadius, exB3, List.finRange_succ_eq_map]
  have hall : ∀ i, (-2:ℚ) ≤ gershBound exB3 i := by
    intro i
    have hi : i = 0 := Subsingleton.elim i 0
    rw [hi, hval]
  exact ⟨⟨⟨0, hval⟩, hall⟩,
    exact_regularization_gershgorin exB3 (-2) ⟨0, hval⟩ hall⟩

/- ===================================================================
   SQP driver data model (SQPInternal::evaluate, sqp_internal.cpp
   lines 120-595).  n = number of variables, m = number of general
   constraints; the external collaborators F (objective and its
   derivative passes), G (constraints), J (constraint Jacobian), the
   Hessian model supplier, the QP subsolver and the user callback are
   opaque callables and are modelled as an oracle record.  The callback
   is an external stateful black box polled once per iteration; it is
   modelled by its answer as a function of the iteration counter.
   =================================================================== -/

/-- Sequential accumulation `for (j) acc += f j` over all indices. -/
def vsum (n : ℕ) (f : Fin n → ℚ) : ℚ :=
  (List.finRange n).foldl (fun a i => a + f i) 0

/-- Solver options read in `SQPInternal::init` plus the problem bounds. -/
structure SQPParams (n m : ℕ) where
  lbx : Fin n → ℚ
  ubx : Fin n → ℚ
  lbg : Fin m → ℚ
  ubg : Fin m → ℚ
  maxiter : ℕ
  maxiter_ls : ℕ
  tol_pr : ℚ
  tol_du : ℚ
  c1 : ℚ
  beta : ℚ
  merit_memsize : ℕ

/-- The input slots of the QP subsolver (H, G, A, LBA, UBA, LBX, UBX,
X_INIT; LAMBDA_INIT is reserved and unused). -/
structure QPInput (n m : ℕ) where
  H : Fin n → Fin n → ℚ
  G : Fin n → ℚ
  XINIT : Option (Fin n → ℚ)
  A : Fin m → Fin n → ℚ
  LBA : Fin m → ℚ
  UBA : Fin m → ℚ
  LBX : Fin n → ℚ
  UBX : Fin n → ℚ

/-- The output slots of the QP subsolver (PRIMAL, LAMBDA_A, LAMBDA_X). -/
structure QPOutput (n m : ℕ) where
  primal : Fin n → ℚ
  lambdaA : Fin m → ℚ
  lambdaX : Fin n → ℚ

/-- The opaque collaborators of the driver. -/
structure SQPOracles (n m : ℕ) where
  f : (Fin n → ℚ) → ℚ
  gradf : (Fin n → ℚ) → Fin n → ℚ
  fdir : (Fin n → ℚ) → (Fin n → ℚ) → ℚ
  g : (Fin n → ℚ) → Fin m → ℚ
  jacg : (Fin n → ℚ) → Fin m → Fin n → ℚ
  gadj : (Fin n → ℚ) → (Fin m → ℚ) → Fin n → ℚ
  hess : ℕ → (Fin n → ℚ) → (Fin m → ℚ) → Fin n → Fin n → ℚ
  qp : QPInput n m → QPOutput n m
  cb : Option (ℕ → Bool)

/-- The driver's mutable iterate state.  `p` is the last QP primal
solution (empty before the first solve, used for hot-starting);
`iter` is `it_counter`. -/
structure SQPState (n m : ℕ) where
  x : Fin n → ℚ
  mu : Fin m → ℚ
  mu_x : Fin n → ℚ
  sigma : ℚ
  meritMem : List ℚ
  p : Option (Fin n → ℚ)
  iter : ℕ

/-- State at entry of the main loop (lines 141-193): `x = x_init`,
`mu = mu_x = 0`, `sigma_ = 0`, empty merit memory, no previous `p`,
`it_counter = 1`. -/
def initSQPState {n m : ℕ} (x0 : Fin n → ℚ) : SQPState n m :=
  { x := x0, mu := fun _ => 0, mu_x := fun _ => 0, sigma := 0,
    meritMem := [], p := none, iter := 1 }

/-- ℓ₁ constraint violation (lines 364-373 and 403-419): for each j the
violated side contributes its amount. -/
def l1Infeas {m : ℕ} (lbg ubg : Fin m → ℚ) (g : Fin m → ℚ) : ℚ :=
  (List.finRange m).foldl (fun a j =>
    if 0 < lbg j - g j then a + (lbg j - g j)
    else if 0 < g j - ubg j then a + (g j - ubg j)
    else a) 0

/-- Primal infeasibility contribution of the general constraints
(lines 505-519): an equality constraint (`ubg-lbg < 1e-20`) contributes
`|g_j - lbg_j|`, otherwise the violated side contributes. -/
def prInfG {m : ℕ} (lbg ubg : Fin m → ℚ) (g : Fin m → ℚ) : ℚ :=
  (List.finRange m).foldl (fun a j =>
    if ubg j - lbg j < 1/10^20 then a + |g j - lbg j|
    else if 0 < lbg j - g j then a + (lbg j - g j)
    else if 0 < g j - ubg j then a + (g j - ubg j)
    else a) 0

/-- Primal infeasibility contribution of the bound constraints
(lines 521-534), same scheme on `lbx ≤ x ≤ ubx`. -/
def prInfX {n : ℕ} (lbx ubx : Fin n → ℚ) (x : Fin n → ℚ) : ℚ :=
  (List.finRange n).foldl (fun a j =>
    if ubx j - lbx j < 1/10^20 then a + |x j - lbx j|
    else if 0 < lbx j - x j then a + (lbx j - x j)
    else if 0 < x j - ubx j then a + (x j - ubx j)
    else a) 0

/-- Penalty parameter update (lines 352-356): for each j in sequence,
`if (fabs(mu_qp[j]) > sigma_) sigma_ = fabs(mu_qp[j]) * 1.01;`.
The bound multipliers `mu_x_qp` do not appear (that loop is commented
out in the source, lines 357-361). -/
def sigmaUpdate {m : ℕ} (sigma : ℚ) (mu : Fin m → ℚ) : ℚ :=
  (List.finRange m).foldl (fun sg j => if sg < |mu j| then |mu j| * (101/100) else sg) sigma

/-- Nonmonotone reference (lines 422-427): maximum of the merit memory,
starting from `-1E20`. -/
def meritMax (mem : List ℚ) : ℚ :=
  mem.foldl (fun mx v => if mx < v then v else mx) (-(10^20 : ℚ))

/-- The line-search loop (lines 396-442), by structural recursion on an
explicit fuel.  State: current trial stepsize `t` and `ls_counter` `c`.
The body computes the candidate at the current `t`; on Armijo acceptance
it exits with `(t, t_cand, ls_counter, true)`; otherwise it backtracks
`t := beta * t` FIRST and only then tests the budget `ls_counter ==
maxiter_ls`, exiting with the backtracked `t` and the candidate built
from the pre-backtracking stepsize.  The fuel is sufficient whenever
`maxiter_ls ≥ 1` (the C++ loop does not terminate on its own when
`maxiter_ls = 0` and the Armijo test keeps failing; that is `none`). -/
def lsLoop (mval : ℚ → ℚ) (M c1 D beta : ℚ) (maxls : ℕ) :
    ℕ → ℚ → ℕ → Option (ℚ × ℚ × ℕ × Bool)
  | 0, _, _ => none
  | fuel+1, t, c =>
    if mval t ≤ M + t * c1 * D then some (t, t, c, true)
    else if c = maxls then some (beta * t, t, c, false)
    else lsLoop mval M c1 D beta maxls fuel (beta * t) (c+1)

/-- The line search: `t = 1.0`, `ls_counter = 1` (lines 389, 396). -/
def lineSearch (mval : ℚ → ℚ) (M c1 D beta : ℚ) (maxls : ℕ) :
    Option (ℚ × ℚ × ℕ × Bool) :=
  lsLoop mval M c1 D beta maxls maxls 1 1

/-- QP subproblem inputs (lines 292-309): Hessian model, objective
gradient, previous `p` as primal warm start, constraint Jacobian, and
the SHIFTED bounds `lbg - g(x)`, `ubg - g(x)`, `lbx - x`, `ubx - x`. -/
def buildQPInput {n m : ℕ} (P : SQPParams n m) (O : SQPOracles n m) (s : SQPState n m) :
    QPInput n m :=
  { H := O.hess s.iter s.x s.mu,
    G := O.gradf s.x,
    XINIT := s.p,
    A := O.jacg s.x,
    LBA := fun j => P.lbg j - O.g s.x j,
    UBA := fun j => P.ubg j - O.g s.x j,
    LBX := fun i => P.lbx i - s.x i,
    UBX := fun i => P.ubx i - s.x i }

/-- The QP solve of the current iteration. -/
def qpSol {n m : ℕ} (P : SQPParams n m) (O : SQPOracles n m) (s : SQPState n m) :
    QPOutput n m :=
  O.qp (buildQPInput P O s)

/-- Search direction `p` (line 332). -/
def stepDir {n m : ℕ} (P : SQPParams n m) (O : SQPOracles n m) (s : SQPState n m) :
    Fin n → ℚ :=
  (qpSol P O s).primal

/-- Updated penalty parameter (lines 352-356). -/
def stepSigma {n m : ℕ} (P : SQPParams n m) (O : SQPOracles n m) (s : SQPState n m) : ℚ :=
  sigmaUpdate s.sigma (qpSol P O s).lambdaA

/-- ℓ₁ infeasibility at the current iterate (lines 364-373). -/
def stepL1x {n m : ℕ} (P : SQPParams n m) (O : SQPOracles n m) (s : SQPState n m) : ℚ :=
  l1Infeas P.lbg P.ubg (O.g s.x)

/-- Armijo directional derivative `L1dir` (line 379): forward directional
derivative of f at x along p, minus `sigma * l1_infeas`. -/
def stepL1dir {n m : ℕ} (P : SQPParams n m) (O : SQPOracles n m) (s : SQPState n m) : ℚ :=
  O.fdir s.x (stepDir P O s) - stepSigma P O s * stepL1x P O s

/-- Merit value at the current iterate (line 380). -/
def stepMerit {n m : ℕ} (P : SQPParams n m) (O : SQPOracles n m) (s : SQPState n m) : ℚ :=
  O.f s.x + stepSigma P O s * stepL1x P O s

/-- Merit memory after push_back and bounded pop_front (lines 383-386). -/
def stepMem {n m : ℕ} (P : SQPParams n m) (O : SQPOracles n m) (s : SQPState n m) : List ℚ :=
  let mm := s.meritMem ++ [stepMerit P O s]
  if P.merit_memsize < mm.length then mm.tail else mm

/-- Trial point `x + t * p` (line 398). -/
def stepXp {n m : ℕ} (P : SQPParams n m) (O : SQPOracles n m) (s : SQPState n m)
    (t : ℚ) : Fin n → ℚ :=
  fun i => s.x i + t * stepDir P O s i

/-- Merit value of the trial point at stepsize `t` (lines 399-420); the
constraint part is the empty sum when m = 0. -/
def stepMval {n m : ℕ} (P : SQPParams n m) (O : SQPOracles n m) (s : SQPState n m)
    (t : ℚ) : ℚ :=
  O.f (stepXp P O s t) + stepSigma P O s * l1Infeas P.lbg P.ubg (O.g (stepXp P O s t))

/-- The line-search call of the iteration. -/
def stepLS {n m : ℕ} (P : SQPParams n m) (O : SQPOracles n m) (s : SQPState n m) :
    Option (ℚ × ℚ × ℕ × Bool) :=
  lineSearch (stepMval P O s) (meritMax (stepMem P O s)) P.c1 (stepL1dir P O s)
    P.beta P.maxiter_ls

/-- Multiplier update (line 448): `mu = t*mu_qp + (1-t)*mu`, with the
post-line-search `t`. -/
def stepMu {n m : ℕ} (P : SQPParams n m) (O : SQPOracles n m) (s : SQPState n m)
    (t : ℚ) : Fin m → ℚ :=
  fun j => t * (qpSol P O s).lambdaA j + (1 - t) * s.mu j

/-- Bound multiplier update (line 449). -/
def stepMuX {n m : ℕ} (P : SQPParams n m) (O : SQPOracles n m) (s : SQPState n m)
    (t : ℚ) : Fin n → ℚ :=
  fun i => t * (qpSol P O s).lambdaX i + (1 - t) * s.mu_x i

/-- Lagrangian gradient at the accepted point (lines 451-463):
`gradf(x_new) + Jg(x_new)^T mu_new (if m>0) + mu_x_new`. -/
def stepGLag {n m : ℕ} (P : SQPParams n m) (O : SQPOracles n m) (s : SQPState n m)
    (t tc : ℚ) : Fin n → ℚ :=
  fun i => O.gradf (stepXp P O s tc) i +
    (if 0 < m then O.gadj (stepXp P O s tc) (stepMu P O s t) i else 0) +
    stepMuX P O s t i

/-- Primal infeasibility of the accepted iterate (lines 501-536): the
whole computation, INCLUDING the bound-violation sum, sits inside
`if (!G_.isNull())`; with no constraint function it is 0. -/
def stepPrInf {n m : ℕ} (P : SQPParams n m) (O : SQPOracles n m) (s : SQPState n m)
    (tc : ℚ) : ℚ :=
  if 0 < m then
    prInfG P.lbg P.ubg (O.g (stepXp P O s tc)) + prInfX P.lbx P.ubx (stepXp P O s tc)
  else 0

/-- Dual infeasibility: 1-norm of the Lagrangian gradient (lines 539-540). -/
def stepDuInf {n m : ℕ} (P : SQPParams n m) (O : SQPOracles n m) (s : SQPState n m)
    (t tc : ℚ) : ℚ :=
  vsum n (fun i => |stepGLag P O s t tc i|)

/-- Whether the user callback fired this iteration (lines 559-572);
`none` models `callback_.isNull()`. -/
def cbFired {n m : ℕ} (O : SQPOracles n m) (s : SQPState n m) : Bool :=
  match O.cb with
  | some c => c s.iter
  | none => false

/-- The three loop exits, tested in source order: callback abort
(line 568), convergence (line 575), iteration cap (line 580). -/
inductive ExitReason where
  | callbackAbort : ExitReason
  | converged : ExitReason
  | maxiterReached : ExitReason
deriving DecidableEq

/-- Exit decision at the end of the iteration. -/
def stepExit {n m : ℕ} (P : SQPParams n m) (O : SQPOracles n m) (s : SQPState n m)
    (t tc : ℚ) : Option ExitReason :=
  if cbFired O s then some ExitReason.callbackAbort
  else if stepPrInf P O s tc < P.tol_pr ∧ stepDuInf P O s t tc < P.tol_du then
    some ExitReason.converged
  else if s.iter = P.maxiter then some ExitReason.maxiterReached
  else none

/-- Data of the iteration's log line (lines 543-556): objective at the
candidate, primal and dual infeasibility, `norm_1(p)`, the stepsize `t`,
`ls_counter` and the `F` marker `ls_counter == maxiter_ls`.  `t_cand` is
the stepsize the accepted candidate was actually built from, and
`accepted` whether the Armijo test passed (both implicit in the source's
control flow). -/
structure IterRecord where
  fk_cand : ℚ
  pr_inf : ℚ
  du_inf : ℚ
  corr_norm : ℚ
  t : ℚ
  t_cand : ℚ
  ls_counter : ℕ
  accepted : Bool
  lsF : Bool

/-- The iteration's log record. -/
def stepRecord {n m : ℕ} (P : SQPParams n m) (O : SQPOracles n m) (s : SQPState n m)
    (t tc : ℚ) (lsc : ℕ) (acc : Bool) : IterRecord :=
  { fk_cand := O.f (stepXp P O s tc),
    pr_inf := stepPrInf P O s tc,
    du_inf := stepDuInf P O s t tc,
    corr_norm := vsum n (fun i => |stepDir P O s i|),
    t := t,
    t_cand := tc,
    ls_counter := lsc,
    accepted := acc,
    lsF := lsc == P.maxiter_ls }

/-- The state after the iteration: the candidate is committed
unconditionally (lines 444-449), sigma/merit memory/p persist, and
`it_counter` is incremented only when the loop continues (line 584). -/
def stepNext {n m : ℕ} (P : SQPParams n m) (O : SQPOracles n m) (s : SQPState n m)
    (t tc : ℚ) : SQPState n m :=
  { x := stepXp P O s tc,
    mu := stepMu P O s t,
    mu_x := stepMuX P O s t,
    sigma := stepSigma P O s,
    meritMem := stepMem P O s,
    p := some (stepDir P O s),
    iter := if (stepExit P O s t tc).isSome then s.iter else s.iter + 1 }

/-- One outer iteration of the main optimization loop (lines 196-585).
`none` only when the inner line-search loop diverges (`maxiter_ls = 0`
with a never-satisfied Armijo test). -/
def sqpStep {n m : ℕ} (P : SQPParams n m) (O : SQPOracles n m) (s : SQPState n m) :
    Option (IterRecord × SQPState n m × Option ExitReason) :=
  match stepLS P O s with
  | none => none
  | some (t, tc, lsc, acc) =>
    some (stepRecord P O s t tc lsc acc, stepNext P O s t tc, stepExit P O s t tc)

/-- The main loop: iterate `sqpStep` until an exit fires, with explicit
fuel (the iteration cap bounds the number of iterations). -/
def sqpRun {n m : ℕ} (P : SQPParams n m) (O : SQPOracles n m) :
    ℕ → SQPState n m → Option (SQPState n m × ExitReason)
  | 0, _ => none
  | fuel+1, s =>
    match sqpStep P O s with
    | none => none
    | some (_, s', some e) => some (s', e)
    | some (_, s', none) => sqpRun P O fuel s'

/- ===================================================================
   Line-search lemmas
   =================================================================== -/

lemma lsLoop_isSome (mval : ℚ → ℚ) (M c1 D beta : ℚ) (maxls : ℕ) :
    ∀ (fuel c : ℕ) (t : ℚ), c ≤ maxls → maxls - c < fuel →
      (lsLoop mval M c1 D beta maxls fuel t c).isSome := by
  intro fuel
  induction fuel with
  | zero => intro c t h1 h2; exact absurd h2 (by omega)
  | succ f ih =>
    intro c t h1 h2
    simp only [lsLoop]
    split_ifs with ha hb
    · simp
    · simp
    · exact ih (c+1) (beta * t) (by omega) (by omega)

lemma lsLoop_fail_counter (mval : ℚ → ℚ) (M c1 D beta : ℚ) (maxls : ℕ) :
    ∀ (fuel c : ℕ) (t t' tc : ℚ) (c' : ℕ),
      lsLoop mval M c1 D beta maxls fuel t c = some (t', tc, c', false) → c' = maxls := by
  intro fuel
  induction fuel with
  | zero => intro c t t' tc c' h; simp [lsLoop] at h
  | succ f ih =>
    intro c t t' tc c' h
    simp only [lsLoop] at h
    split_ifs at h with ha hb
    · simp at h
    · simp only [Option.some.injEq, Prod.mk.injEq] at h
      obtain ⟨-, -, hc, -⟩ := h
      omega
    · exact ih (c+1) (beta * t) t' tc c' h

lemma lineSearch_isSome (mval : ℚ → ℚ) (M c1 D beta : ℚ) (maxls : ℕ)
    (h : 1 ≤ maxls) : (lineSearch mval M c1 D beta maxls).isSome :=
  lsLoop_isSome mval M c1 D beta maxls maxls 1 1 h (by omega)

/-- Full characterization of the line search with a budget of one trial:
the candidate is always built from `t = 1`; on Armijo success the
returned stepsize is 1, on failure it is the backtracked `beta * 1`. -/
lemma lineSearch_one_eq (mval : ℚ → ℚ) (M c1 D beta : ℚ) :
    lineSearch mval M c1 D beta 1 =
      (if mval 1 ≤ M + 1 * c1 * D then some (1, 1, 1, true)
       else some (beta * 1, 1, 1, false)) := by
  unfold lineSearch
  simp only [lsLoop]
  split_ifs <;> rfl

/- ===================================================================
   Step lemmas
   =================================================================== -/

lemma stepLS_some {n m : ℕ} (P : SQPParams n m) (O : SQPOracles n m) (s : SQPState n m)
    (h : 1 ≤ P.maxiter_ls) :
    ∃ t tc lsc acc, stepLS P O s = some (t, tc, lsc, acc) := by
  have := lineSearch_isSome (stepMval P O s) (meritMax (stepMem P O s)) P.c1
    (stepL1dir P O s) P.beta P.maxiter_ls h
  rw [Option.isSome_iff_exists] at this
  obtain ⟨⟨t, tc, lsc, acc⟩, hv⟩ := this
  exact ⟨t, tc, lsc, acc, hv⟩

lemma sqpStep_eq_of_ls {n m : ℕ} (P : SQPParams n m) (O : SQPOracles n m)
    (s : SQPState n m) (t tc : ℚ) (lsc : ℕ) (acc : Bool)
    (h : stepLS P O s = some (t, tc, lsc, acc)) :
    sqpStep P O s =
      some (stepRecord P O s t tc lsc acc, stepNext P O s t tc, stepExit P O s t tc) := by
  unfold sqpStep
  rw [h]

lemma stepExit_none_iter {n m : ℕ} (P : SQPParams n m) (O : SQPOracles n m)
    (s : SQPState n m) (t tc : ℚ) (h : stepExit P O s t tc = none) :
    s.iter ≠ P.maxiter := by
  unfold stepExit at h
  split_ifs at h with h1 h2 h3
  exact h3

lemma stepExit_cb {n m : ℕ} (P : SQPParams n m) (O : SQPOracles n m)
    (s : SQPState n m) (t tc : ℚ)
    (h : stepExit P O s t tc = some ExitReason.callbackAbort) :
    cbFired O s = true := by
  unfold stepExit at h
  split_ifs at h with h1 h2 h3
  · exact h1
  · exact absurd (Option.some.inj h) (by simp)
  · exact absurd (Option.some.inj h) (by simp)

lemma stepExit_max {n m : ℕ} (P : SQPParams n m) (O : SQPOracles n m)
    (s : SQPState n m) (t tc : ℚ)
    (h : stepExit P O s t tc = some ExitReason.maxiterReached) :
    s.iter = P.maxiter := by
  unfold stepExit at h
  split_ifs at h with h1 h2 h3
  · exact absurd (Option.some.inj h) (by simp)
  · exact absurd (Option.some.inj h) (by simp)
  · exact h3

lemma cbFired_spec {n m : ℕ} (O : SQPOracles n m) (s : SQPState n m)
    (h : cbFired O s = true) : ∃ c, O.cb = some c ∧ c s.iter = true := by
  unfold cbFired at h
  cases hcb : O.cb with
  | none => rw [hcb] at h; exact absurd h (by simp)
  | some c => rw [hcb] at h; exact ⟨c, rfl, h⟩

lemma stepNext_iter_some {n m : ℕ} (P : SQPParams n m) (O : SQPOracles n m)
    (s : SQPState n m) (t tc : ℚ) (e : ExitReason)
    (h : stepExit P O s t tc = some e) :
    (stepNext P O s t tc).iter = s.iter := by
  unfold stepNext
  rw [h]
  rfl

lemma stepNext_iter_none {n m : ℕ} (P : SQPParams n m) (O : SQPOracles n m)
    (s : SQPState n m) (t tc : ℚ)
    (h : stepExit P O s t tc = none) :
    (stepNext P O s t tc).iter = s.iter + 1 := by
  unfold stepNext
  rw [h]
  rfl

lemma foldl_step_mono {α : Type} (g : ℚ → α → ℚ) (hg : ∀ s a, s ≤ g s a) :
    ∀ (l : List α) (s : ℚ), s ≤ l.foldl g s := by
  intro l
  induction l with
  | nil => intro s; exact le_refl s
  | cons a l ih => intro s; exact le_trans (hg s a) (ih (g s a))

lemma sigmaUpdate_mono {m : ℕ} (sigma : ℚ) (mu : Fin m → ℚ) :
    sigma ≤ sigmaUpdate sigma mu := by
  refine foldl_step_mono _ ?_ (List.finRange m) sigma
  intro s j
  by_cases h : s < |mu j|
  · rw [if_pos h]
    have habs : (0:ℚ) ≤ |mu j| := abs_nonneg _
    nlinarith
  · rw [if_neg h]

/- ===================================================================
   Run-level lemma: under the iteration cap, the main loop always
   reaches one of the three exits.
   =================================================================== -/

lemma sqpRun_spec {n m : ℕ} (P : SQPParams n m) (O : SQPOracles n m) :
    ∀ (fuel : ℕ) (s : SQPState n m), 1 ≤ P.maxiter_ls → s.iter ≤ P.maxiter →
      P.maxiter + 1 - s.iter ≤ fuel →
      ∃ s' e, sqpRun P O fuel s = some (s', e) ∧
        (e = ExitReason.callbackAbort → ∃ c, O.cb = some c ∧ c s'.iter = true) ∧
        (O.cb = none → e ≠ ExitReason.callbackAbort) ∧
        (e = ExitReason.maxiterReached → s'.iter = P.maxiter) := by
  intro fuel
  induction fuel with
  | zero =>
    intro s h1 h2 h3
    exact absurd h3 (by omega)
  | succ f ih =>
    intro s h1 h2 h3
    obtain ⟨t, tc, lsc, acc, hls⟩ := stepLS_some P O s h1
    have hstep := sqpStep_eq_of_ls P O s t tc lsc acc hls
    cases hex : stepExit P O s t tc with
    | some e =>
      refine ⟨stepNext P O s t tc, e, ?_, ?_, ?_, ?_⟩
      · simp only [sqpRun]
        rw [hstep, hex]
      · intro he
        rw [he] at hex
        obtain ⟨c, hc1, hc2⟩ := cbFired_spec O s (stepExit_cb P O s t tc hex)
        rw [stepNext_iter_some P O s t tc ExitReason.callbackAbort hex]
        exact ⟨c, hc1, hc2⟩
      · intro hnone he
        rw [he] at hex
        have := cbFired_spec O s (stepExit_cb P O s t tc hex)
        obtain ⟨c, hc1, -⟩ := this
        rw [hnone] at hc1
        exact Option.noConfusion hc1
      · intro he
        rw [he] at hex
        rw [stepNext_iter_some P O s t tc ExitReason.maxiterReached hex]
        exact stepExit_max P O s t tc hex
    | none =>
      have hni := stepExit_none_iter P O s t tc hex
      have hit := stepNext_iter_none P O s t tc hex
      obtain ⟨s', e, hrun, hA, hB, hC⟩ :=
        ih (stepNext P O s t tc) h1 (by omega) (by omega)
      refine ⟨s', e, ?_, hA, hB, hC⟩
      simp only [sqpRun]
      rw [hstep, hex]
      exact hrun

/- ===================================================================
   Concrete test instances (n = 1, m = 0) used by the witnesses and
   counterexamples below.  The bound lbx = ubx = 0 is an equality bound;
   the QP oracle proposes the step p = 5; the objective oracle `exO`
   is identically zero (its Armijo test accepts at t = 1), while `exO2`
   is zero at the origin and 10 elsewhere (its Armijo test fails).
   =================================================================== -/

def exP : SQPParams 1 0 :=
  { lbx := fun _ => 0, ubx := fun _ => 0,
    lbg := Fin.elim0, ubg := Fin.elim0,
    maxiter := 3, maxiter_ls := 1,
    tol_pr := 1/1000000, tol_du := 1/1000000,
    c1 := 1/10000, beta := 4/5, merit_memsize := 4 }

def exO : SQPOracles 1 0 :=
  { f := fun _ => 0, gradf := fun _ _ => 0, fdir := fun _ _ => 0,
    g := fun _ => Fin.elim0, jacg := fun _ => Fin.elim0,
    gadj := fun _ _ _ => 0, hess := fun _ _ _ _ _ => 1,
    qp := fun _ => { primal := fun _ => 5, lambdaA := Fin.elim0, lambdaX := fun _ => 0 },
    cb := none }

def exO2 : SQPOracles 1 0 :=
  { exO with f := fun x => if x 0 = 0 then 0 else 10 }

def exS : SQPState 1 0 := initSQPState (fun _ => 0)

/-- On the zero objective instance, the single-budget line search accepts
the full step at the first trial. -/
lemma exO_ls : stepLS exP exO exS = some (1, 1, 1, true) := by
  have harm : stepMval exP exO exS 1 ≤
      meritMax (stepMem exP exO exS) + 1 * exP.c1 * stepL1dir exP exO exS := by
    norm_num [stepMval, stepMem, stepMerit, stepSigma, stepL1x, stepL1dir, stepXp,
      stepDir, qpSol, sigmaUpdate, l1Infeas, meritMax, exP, exO, exS, initSQPState]
  show lineSearch (stepMval exP exO exS) (meritMax (stepMem exP exO exS)) exP.c1
      (stepL1dir exP exO exS) exP.beta exP.maxiter_ls = some (1, 1, 1, true)
  rw [show exP.maxiter_ls = 1 from rfl, lineSearch_one_eq, if_pos harm]

/-- On the `exO2` instance (objective 10 away from the origin), the
single-budget line search fails its one Armijo trial and exits with the
backtracked stepsize. -/
lemma exO2_ls : stepLS exP exO2 exS = some (4/5 * 1, 1, 1, false) := by
  have harm : ¬ (stepMval exP exO2 exS 1 ≤
      meritMax (stepMem exP exO2 exS) + 1 * exP.c1 * stepL1dir exP exO2 exS) := by
    norm_num [stepMval, stepMem, stepMerit, stepSigma, stepL1x, stepL1dir, stepXp,
      stepDir, qpSol, sigmaUpdate, l1Infeas, meritMax, exP, exO2, exO, exS, initSQPState]
  show lineSearch (stepMval exP exO2 exS) (meritMax (stepMem exP exO2 exS)) exP.c1
      (stepL1dir exP exO2 exS) exP.beta exP.maxiter_ls = some (4/5 * 1, 1, 1, false)
  rw [show exP.maxiter_ls = 1 from rfl, lineSearch_one_eq, if_neg harm]
  rfl

/-- C1 counterexample: a run with m = 0 (G absent), an equality bound
`lbx = ubx = 0` and accepted candidate `x_cand = 5`: the step's computed
`pr_inf` is 0, while the sum of bound violations of the committed iterate
is 5.  The whole `pr_inf` computation, bound part included, is inside
`if (!G_.isNull())`. -/
theorem pr_inf_unconstrained_cex :
    (sqpStep exP exO exS).map (fun z => z.1.pr_inf) = some 0 ∧
    (sqpStep exP exO exS).map (fun z => prInfX exP.lbx exP.ubx z.2.1.x) = some 5 ∧
    (0:ℚ) ≠ 5 := by
  refine ⟨?_, ?_, by norm_num⟩
  · rw [sqpStep_eq_of_ls exP exO exS 1 1 1 true exO_ls]
    simp [stepRecord, stepPrInf]
  · rw [sqpStep_eq_of_ls exP exO exS 1 1 1 true exO_ls]
    simp only [Option.map_some']
    norm_num [stepNext, stepXp, stepDir, qpSol, exO, exP, exS, initSQPState, prInfX,
      List.finRange_succ_eq_map]

/-- C1 (amended): for every iteration of a run with m = 0 (G absent), the
primal infeasibility `pr_inf` computed after the accepted step is 0: the
bound-violation sum is skipped together with the constraint part, so the
convergence test does not account for bound violations in the
unconstrained case. -/
theorem pr_inf_unconstrained_zero {n : ℕ} (P : SQPParams n 0) (O : SQPOracles n 0)
    (s : SQPState n 0) (h : 1 ≤ P.maxiter_ls) :
    ∃ r s' e, sqpStep P O s = some (r, s', e) ∧ r.pr_inf = 0 := by
  obtain ⟨t, tc, lsc, acc, hls⟩ := stepLS_some P O s h
  refine ⟨_, _, _, sqpStep_eq_of_ls P O s t tc lsc acc hls, ?_⟩
  show stepPrInf P O s tc = 0
  simp [stepPrInf]

/-- C1 witness: the amended statement at the concrete m = 0 instance. -/
theorem pr_inf_unconstrained_zero_witness :
    1 ≤ exP.maxiter_ls ∧
    (∃ r s' e, sqpStep exP exO exS = some (r, s', e) ∧ r.pr_inf = 0) :=
  ⟨by decide, pr_inf_unconstrained_zero exP exO exS (by decide)⟩

/-- C4 counterexample: with `maxiter_ls = 1` and a failing Armijo test,
the committed candidate is still `x + 1 * p` but the stepsize returned to
the caller (used in the multiplier update and the log) is `beta = 4/5`,
not 1: the backtracking update `t = beta * t` runs before the budget
check. -/
theorem full_step_stepsize_cex :
    (sqpStep exP exO2 exS).map (fun z => (z.1.t, z.1.t_cand)) = some (4/5, 1) ∧
    ((4:ℚ)/5) ≠ 1 := by
  refine ⟨?_, by norm_num⟩
  rw [sqpStep_eq_of_ls exP exO2 exS (4/5 * 1) 1 1 false exO2_ls]
  simp [stepRecord]

/-- C4 (amended): when `maxiter_ls = 1`, every line search builds its only
candidate from the full stepsize `t = 1` (so the committed point is
`x + 1 * p`), and the stepsize returned to the caller is 1 exactly when
the Armijo test succeeded at the full step; when the test fails, the
returned stepsize is the backtracked `beta * 1`. -/
theorem linesearch_budget_one (mval : ℚ → ℚ) (M c1 D beta : ℚ) :
    lineSearch mval M c1 D beta 1 =
      (if mval 1 ≤ M + 1 * c1 * D then some (1, 1, 1, true)
       else some (beta * 1, 1, 1, false)) :=
  lineSearch_one_eq mval M c1 D beta

/-- C5 counterexample: an iteration whose only line-search trial is
ACCEPTED still carries the `F` marker, because the marker condition is
`ls_counter == maxiter_ls` regardless of acceptance; so the marker is not
equivalent to budget exhaustion without acceptance. -/
theorem ls_marker_cex :
    (sqpStep exP exO exS).map (fun z => (z.1.accepted, z.1.lsF)) = some (true, true) := by
  rw [sqpStep_eq_of_ls exP exO exS 1 1 1 true exO_ls]
  rfl

/-- C5 (amended): the line search always terminates with a candidate that
the outer iteration commits (the new state's `x` is built from the
candidate stepsize `t_cand`), so budget exhaustion is not terminal; the
`F` marker equals the test `ls_counter == maxiter_ls`, which holds
whenever the budget was exhausted without acceptance, but also fires when
the candidate was accepted on the final trial. -/
theorem ls_exhaustion_accepts_and_marker {n m : ℕ} (P : SQPParams n m)
    (O : SQPOracles n m) (s : SQPState n m) (h : 1 ≤ P.maxiter_ls) :
    ∃ r s' e, sqpStep P O s = some (r, s', e) ∧
      s'.x = (fun i => s.x i + r.t_cand * stepDir P O s i) ∧
      (r.accepted = false → r.ls_counter = P.maxiter_ls) ∧
      r.lsF = (r.ls_counter == P.maxiter_ls) := by
  obtain ⟨t, tc, lsc, acc, hls⟩ := stepLS_some P O s h
  refine ⟨_, _, _, sqpStep_eq_of_ls P O s t tc lsc acc hls, rfl, ?_, rfl⟩
  intro hacc
  have hacc' : acc = false := hacc
  rw [hacc'] at hls
  unfold stepLS lineSearch at hls
  exact lsLoop_fail_counter _ _ _ _ _ _ _ _ _ _ _ _ hls

/-- C5 witness: the amended statement at the concrete instance. -/
theorem ls_exhaustion_accepts_and_marker_witness :
    1 ≤ exP.maxiter_ls ∧
    (∃ r s' e, sqpStep exP exO exS = some (r, s', e) ∧
      s'.x = (fun i => exS.x i + r.t_cand * stepDir exP exO exS i) ∧
      (r.accepted = false → r.ls_counter = exP.maxiter_ls) ∧
      r.lsF = (r.ls_counter == exP.maxiter_ls)) :=
  ⟨by decide, ls_exhaustion_accepts_and_marker exP exO exS (by decide)⟩

/-- C6: on every outer iteration the QP subproblem receives the shifted
bounds `LBX = lbx - x`, `UBX = ubx - x`, `LBA = lbg - g(x)`,
`UBA = ubg - g(x)` componentwise; the raw bounds are never passed (the
`QPInput` built by the driver has no other bound fields). -/
theorem qp_shifted_bounds {n m : ℕ} (P : SQPParams n m) (O : SQPOracles n m)
    (s : SQPState n m) (i : Fin n) (j : Fin m) :
    (buildQPInput P O s).LBX i = P.lbx i - s.x i ∧
    (buildQPInput P O s).UBX i = P.ubx i - s.x i ∧
    (buildQPInput P O s).LBA j = P.lbg j - O.g s.x j ∧
    (buildQPInput P O s).UBA j = P.ubg j - O.g s.x j :=
  ⟨rfl, rfl, rfl, rfl⟩

/-- C7: within an `evaluate` call the penalty parameter starts at 0, and
across every iteration the new `sigma` is exactly the fold of the update
rule `if |mu_qp_j| > sigma then sigma = 1.01 * |mu_qp_j|` over the
general-constraint multipliers of the QP solution (so the bound
multipliers `mu_x_qp` never enter), which is monotone non-decreasing. -/
theorem sigma_monotone_update {n m : ℕ} (P : SQPParams n m) (O : SQPOracles n m)
    (s : SQPState n m) (x0 : Fin n → ℚ) (h : 1 ≤ P.maxiter_ls) :
    (initSQPState x0 : SQPState n m).sigma = 0 ∧
    ∃ r s' e, sqpStep P O s = some (r, s', e) ∧
      s'.sigma = sigmaUpdate s.sigma (qpSol P O s).lambdaA ∧
      s.sigma ≤ s'.sigma := by
  refine ⟨rfl, ?_⟩
  obtain ⟨t, tc, lsc, acc, hls⟩ := stepLS_some P O s h
  exact ⟨_, _, _, sqpStep_eq_of_ls P O s t tc lsc acc hls, rfl,
    sigmaUpdate_mono s.sigma _⟩

/-- C7 witness: the statement at the concrete instance. -/
theorem sigma_monotone_update_witness :
    1 ≤ exP.maxiter_ls ∧
    ((initSQPState (fun _ => 0) : SQPState 1 0).sigma = 0 ∧
     ∃ r s' e, sqpStep exP exO exS = some (r, s', e) ∧
       s'.sigma = sigmaUpdate exS.sigma (qpSol exP exO exS).lambdaA ∧
       exS.sigma ≤ s'.sigma) :=
  ⟨by decide, sigma_monotone_update exP exO exS (fun _ => 0) (by decide)⟩

/-- C8: under the iteration cap, the main loop always terminates, and it
terminates only through the three exits of the `ExitReason` type
(convergence, iteration cap, callback abort); a callback abort implies
the callback answered true at the final iteration counter (so a callback
returning 1 after iteration k yields `iter_count = k`), no callback means
no callback abort, and an iteration-cap exit leaves `iter_count =
maxiter`. -/
theorem sqp_termination_exits {n m : ℕ} (P : SQPParams n m) (O : SQPOracles n m)
    (s : SQPState n m) (h1 : 1 ≤ P.maxiter_ls) (h2 : s.iter ≤ P.maxiter) :
    ∃ s' e, sqpRun P O (P.maxiter + 1 - s.iter) s = some (s', e) ∧
      (e = ExitReason.callbackAbort → ∃ c, O.cb = some c ∧ c s'.iter = true) ∧
      (O.cb = none → e ≠ ExitReason.callbackAbort) ∧
      (e = ExitReason.maxiterReached → s'.iter = P.maxiter) :=
  sqpRun_spec P O (P.maxiter + 1 - s.iter) s h1 h2 (le_refl _)

/-- C8 witness: the statement at the concrete instance. -/
theorem sqp_termination_exits_witness :
    (1 ≤ exP.maxiter_ls ∧ exS.iter ≤ exP.maxiter) ∧
    (∃ s' e, sqpRun exP exO (exP.maxiter + 1 - exS.iter) exS = some (s', e) ∧
      (e = ExitReason.callbackAbort → ∃ c, exO.cb = some c ∧ c s'.iter = true) ∧
      (exO.cb = none → e ≠ ExitReason.callbackAbort) ∧
      (e = ExitReason.maxiterReached → s'.iter = exP.maxiter)) :=
  ⟨⟨by decide, by decide⟩, sqp_termination_exits exP exO exS (by decide) (by decide)⟩

/- ===================================================================
   Evaluation node (casadi/mx/evaluation.cpp)
   =================================================================== -/

/-- Indexed map with a running start index: models loops of the form
`for (i = 0; i < a.size(); ++i) a[i] = f(i, a[i])`, which write each
slot of an array exactly once. -/
def mapi {α β : Type} (f : ℕ → α → β) : ℕ → List α → List β
  | _, [] => []
  | k, a :: l => f k a :: mapi f (k+1) l

lemma mapi_get? {α β : Type} (f : ℕ → α → β) :
    ∀ (l : List α) (k i : ℕ),
      (mapi f k l).get? i = (l.get? i).map (fun a => f (k + i) a) := by
  intro l
  induction l with
  | nil => intro k i; rfl
  | cons a l ih =>
    intro k i
    cases i with
    | zero => simp [mapi]
    | succ i =>
      show (mapi f (k+1) l).get? i = (l.get? i).map (fun a => f (k + (i+1)) a)
      rw [ih (k+1) i]
      have hk : k + 1 + i = k + (i + 1) := by omega
      rw [hk]

lemma isEmpty_false_of_ne_nil {α : Type} (v : List α) (h : v ≠ []) :
    v.isEmpty = false := by
  cases v with
  | nil => exact absurd rfl h
  | cons a l => rfl

/- -------------------------------------------------------------------
   Evaluation::evaluateMX (lines 149-186).

   Symbolic MX expressions are modelled by a small term language: `null`
   is the default-constructed MX(), `callOut args oind` is
   `fcn_.call(arg)[oind]`, `jacRef e iind` is
   `MX::create(new JacobianReference(e, iind))`, and `zeros`, `prodE`,
   `addE` are `MX::zeros`, `prod`, `+=`.  The C++ body is two blocks
   separated by an unconditional `return;`; statements run in an
   early-return semantics so that the translated tail is part of the
   definition and its (non-)execution is a provable fact.
   ------------------------------------------------------------------- -/

inductive MXe where
  | null : MXe
  | zeros : MXe
  | callOut : List MXe → ℕ → MXe
  | jacRef : MXe → ℕ → MXe
  | prodE : MXe → MXe → MXe
  | addE : MXe → MXe → MXe

/-- The mutable locations `evaluateMX` can reach: the node member
`fwdSeed_` and the caller's output and forward-sensitivity pointers. -/
structure MXFrame where
  fwdSeedMem : List (List MXe)
  outArg : List (Option MXe)
  fwdSensArg : List (List (Option MXe))

/-- Outcome of a statement: early-returned state or fall-through state. -/
inductive EROut (σ : Type) where
  | ret : σ → EROut σ
  | next : σ → EROut σ

def ERStmt (σ : Type) := σ → EROut σ

/-- Sequencing: a `return` in the first statement skips the second. -/
def erSeq {σ : Type} (a b : ERStmt σ) : ERStmt σ := fun s =>
  match a s with
  | EROut.ret s' => EROut.ret s'
  | EROut.next s' => b s'

def erAssign {σ : Type} (f : σ → σ) : ERStmt σ := fun s => EROut.next (f s)

/-- The `return;` statement. -/
def erReturn {σ : Type} : ERStmt σ := fun s => EROut.ret s

def erRun {σ : Type} (a : ERStmt σ) (s : σ) : σ :=
  match a s with
  | EROut.ret s' => s'
  | EROut.next s' => s'

/-- First block (lines 153-161): `fwdSeed_` is resized and each non-null
forward seed argument is copied in; null entries stay null MX(). -/
def seedCopyMX (fwdSeed : List (List (Option MXe))) : List (List MXe) :=
  fwdSeed.map (fun r => r.map (fun o => o.getD MXe.null))

/-- Read `ll[d][i]` through possibly-null pointers. -/
def slotOf {α : Type} (ll : List (List (Option α))) (d i : ℕ) : Option α :=
  (((ll.get? d).getD []).get? i).getD none

/-- The block after the `return;` (lines 165-185): `res = fcn_.call(arg)`
and, for every direction and non-null output sensitivity, the seeded
Jacobian accumulation. -/
def evaluateMXTail (input : List (Option MXe)) (fwdSeed : List (List (Option MXe)))
    (fwdSens : List (List (Option MXe))) : List (List (Option MXe)) :=
  let arg := input.map (fun o => o.getD MXe.null)
  mapi (fun d r => mapi (fun oind o =>
    match o with
    | none => none
    | some _ => some ((List.range input.length).foldl (fun acc iind =>
        match slotOf fwdSeed d iind with
        | some sd => MXe.addE acc (MXe.prodE (MXe.jacRef (MXe.callOut arg oind) iind) sd)
        | none => acc) MXe.zeros)) 0 r) 0 fwdSens

/-- The body of `Evaluation::evaluateMX`: seed copy, `return;`, then the
symbolic propagation tail. -/
def evaluateMXBody (input : List (Option MXe)) (fwdSeed : List (List (Option MXe))) :
    ERStmt MXFrame :=
  erSeq (erAssign (fun fr => { fr with fwdSeedMem := seedCopyMX fwdSeed }))
    (erSeq erReturn
      (erAssign (fun fr =>
        { fr with fwdSensArg := evaluateMXTail input fwdSeed fr.fwdSensArg })))

def evaluateMX_exec (input : List (Option MXe)) (fwdSeed : List (List (Option MXe)))
    (fr : MXFrame) : MXFrame :=
  erRun (evaluateMXBody input fwdSeed) fr

/-- C9: `Evaluation::evaluateMX` copies the forward seeds into the member
`fwdSeed_` and returns immediately; the caller's output and
forward-sensitivity arguments are untouched, i.e. the symbolic
propagation tail after the unconditional `return;` is dead code. -/
theorem evaluateMX_early_return (input : List (Option MXe))
    (fwdSeed : List (List (Option MXe))) (fr : MXFrame) :
    evaluateMX_exec input fwdSeed fr = { fr with fwdSeedMem := seedCopyMX fwdSeed } ∧
    (evaluateMX_exec input fwdSeed fr).outArg = fr.outArg ∧
    (evaluateMX_exec input fwdSeed fr).fwdSensArg = fr.fwdSensArg :=
  ⟨rfl, rfl, rfl⟩

/- -------------------------------------------------------------------
   Evaluation::evaluate (lines 64-110), numeric path.

   The wrapped function object `fcn_` owns input and seed buffers and
   produces outputs and sensitivities; it is opaque, so its buffers are
   a record and its results after `fcn_.evaluate(nfwd, nadj)` are oracle
   functions of the buffer contents.
   ------------------------------------------------------------------- -/

abbrev Vec := List ℚ

/-- Read `l[i]` through possibly-null pointers. -/
def slotV (l : List (Option Vec)) (i : ℕ) : Option Vec := (l.get? i).getD none

/-- Row `ll[d]` of a two-level pointer array. -/
def rowV (ll : List (List (Option Vec))) (d : ℕ) : List (Option Vec) :=
  (ll.get? d).getD []

/-- The buffers owned by `fcn_`. -/
structure FcnBuffers where
  inBuf : List Vec
  fwdSeedBuf : List (List Vec)
  adjSeedBuf : List (List Vec)

/-- Results of `fcn_.evaluate` as functions of the buffer contents:
`getOutput(i)`, `getFwdSens(i,d)`, `adjSens(i,d)`. -/
structure FcnOracle where
  outF : FcnBuffers → ℕ → Vec
  fwdSensF : FcnBuffers → ℕ → ℕ → Vec
  adjSensF : FcnBuffers → ℕ → ℕ → Vec

/-- Lines 69-85: pass inputs and forward seeds (guarded by
`input[i] != 0 && input[i]->size() != 0`), and adjoint seeds (guarded by
`adjSeed[d][0] != 0 && adjSeed[d][0]->size() != 0`; note the source
reads slot `[0]` of each direction for every output index). -/
def passInputs (input : List (Option Vec)) (fwdSeed adjSeed : List (List (Option Vec)))
    (bufs : FcnBuffers) : FcnBuffers :=
  { inBuf := mapi (fun i b =>
      match slotV input i with
      | some v => if v.isEmpty then b else v
      | none => b) 0 bufs.inBuf,
    fwdSeedBuf := mapi (fun d r => mapi (fun i b =>
      match slotV input i with
      | some v => if v.isEmpty then b else
          (match slotV (rowV fwdSeed d) i with
           | some w => w
           | none => b)
      | none => b) 0 r) 0 bufs.fwdSeedBuf,
    adjSeedBuf := mapi (fun d r => mapi (fun _ b =>
      match slotV (rowV adjSeed d) 0 with
      | some w => if w.isEmpty then b else w
      | none => b) 0 r) 0 bufs.adjSeedBuf }

/-- Lines 91-98, output part: non-null non-empty output slots are
OVERWRITTEN with `fcn_`'s outputs. -/
def writeOut (F : FcnOracle) (bufs : FcnBuffers) (output : List (Option Vec)) :
    List (Option Vec) :=
  mapi (fun i o =>
    match o with
    | some v => if v.isEmpty then some v else some (F.outF bufs i)
    | none => none) 0 output

/-- Lines 91-98, forward-sensitivity part: for every direction, slots at
output indices passing the OUTPUT guard are OVERWRITTEN. -/
def writeFwdSens (F : FcnOracle) (bufs : FcnBuffers) (output : List (Option Vec))
    (fwdSens : List (List (Option Vec))) : List (List (Option Vec)) :=
  mapi (fun d r => mapi (fun i o =>
    match slotV output i with
    | some v => if v.isEmpty then o else
        (match o with
         | some _ => some (F.fwdSensF bufs i d)
         | none => none)
    | none => o) 0 r) 0 fwdSens

/-- Lines 101-109: non-null non-empty adjoint-sensitivity slots are
ACCUMULATED: `adjSens[d][i]->data()[j] += asens[j]` for
`j < asens.size()`, positions past `asens.size()` keep their values. -/
def accumAdjSens (F : FcnOracle) (bufs : FcnBuffers)
    (adjSens : List (List (Option Vec))) : List (List (Option Vec)) :=
  mapi (fun d r => mapi (fun i o =>
    match o with
    | some v => if v.isEmpty then some v else
        some (List.zipWith (fun a b => a + b) v (F.adjSensF bufs i d) ++
          v.drop (F.adjSensF bufs i d).length)
    | none => none) 0 r) 0 adjSens

/-- `Evaluation::evaluate`: pass inputs and seeds to `fcn_`, evaluate,
then write outputs and forward sensitivities and accumulate adjoint
sensitivities.  Returns the caller's (output, fwdSens, adjSens) arrays. -/
def Evaluation_evaluate (F : FcnOracle) (input output : List (Option Vec))
    (fwdSeed fwdSens adjSeed adjSens : List (List (Option Vec))) (bufs : FcnBuffers) :
    List (Option Vec) × List (List (Option Vec)) × List (List (Option Vec)) :=
  let bufs1 := passInputs input fwdSeed adjSeed bufs
  (writeOut F bufs1 output, writeFwdSens F bufs1 output fwdSens,
    accumAdjSens F bufs1 adjSens)

/-- C10: in `Evaluation::evaluate`, every non-null, non-empty
adjoint-sensitivity slot ends equal to its prior contents PLUS the
function's adjoint sensitivity, whereas output slots and
forward-sensitivity slots (at output indices passing the output guard)
are overwritten with the function's values; hence callers must zero the
adjoint buffers beforehand to obtain plain adjoint values. -/
theorem evaluate_adjsens_accumulate
    (F : FcnOracle) (bufs : FcnBuffers) (input output : List (Option Vec))
    (fwdSeed fwdSens adjSeed adjSens : List (List (Option Vec)))
    (d i : ℕ) (v : Vec) (rowA : List (Option Vec))
    (hrow : adjSens.get? d = some rowA)
    (hslot : rowA.get? i = some (some v))
    (hne : v ≠ [])
    (hlen : (F.adjSensF (passInputs input fwdSeed adjSeed bufs) i d).length = v.length) :
    (∃ rowA2,
      (Evaluation_evaluate F input output fwdSeed fwdSens adjSeed adjSens bufs).2.2.get? d =
        some rowA2 ∧
      rowA2.get? i = some (some (List.zipWith (fun a b => a + b) v
        (F.adjSensF (passInputs input fwdSeed adjSeed bufs) i d)))) ∧
    (∀ i2 w, output.get? i2 = some (some w) → w ≠ [] →
      (Evaluation_evaluate F input output fwdSeed fwdSens adjSeed adjSens bufs).1.get? i2 =
        some (some (F.outF (passInputs input fwdSeed adjSeed bufs) i2))) ∧
    (∀ d2 i2 rowF u w, fwdSens.get? d2 = some rowF → rowF.get? i2 = some (some u) →
      output.get? i2 = some (some w) → w ≠ [] →
      ∃ rowF2,
        (Evaluation_evaluate F input output fwdSeed fwdSens adjSeed adjSens bufs).2.1.get? d2 =
          some rowF2 ∧
        rowF2.get? i2 = some (some (F.fwdSensF (passInputs input fwdSeed adjSeed bufs) i2 d2))) := by
  have hEmp : v.isEmpty = false := isEmpty_false_of_ne_nil v hne
  refine ⟨?_, ?_, ?_⟩
  · have hA : (Evaluation_evaluate F input output fwdSeed fwdSens adjSeed adjSens bufs).2.2 =
        accumAdjSens F (passInputs input fwdSeed adjSeed bufs) adjSens := rfl
    rw [hA]
    unfold accumAdjSens
    rw [mapi_get?, hrow]
    simp only [Option.map_some', Nat.zero_add]
    refine ⟨_, rfl, ?_⟩
    rw [mapi_get?, hslot]
    simp only [Option.map_some', Nat.zero_add]
    simp [hEmp, hlen]
  · intro i2 w hw hwne
    have hB : (Evaluation_evaluate F input output fwdSeed fwdSens adjSeed adjSens bufs).1 =
        writeOut F (passInputs input fwdSeed adjSeed bufs) output := rfl
    rw [hB]
    unfold writeOut
    rw [mapi_get?, hw]
    simp [isEmpty_false_of_ne_nil w hwne]
    intro h
    exact absurd h hwne
  · intro d2 i2 rowF u w hrF hsF hout hwne
    have hC : (Evaluation_evaluate F input output fwdSeed fwdSens adjSeed adjSens bufs).2.1 =
        writeFwdSens F (passInputs input fwdSeed adjSeed bufs) output fwdSens := rfl
    rw [hC]
    unfold writeFwdSens
    rw [mapi_get?, hrF]
    simp only [Option.map_some', Nat.zero_add]
    refine ⟨_, rfl, ?_⟩
    rw [mapi_get?, hsF]
    simp only [Option.map_some', Nat.zero_add]
    have hslotOut : slotV output i2 = some w := by unfold slotV; rw [hout]; rfl
    simp [hslotOut, isEmpty_false_of_ne_nil w hwne]

/-- Concrete constant function oracle for the C10 witness. -/
def exF : FcnOracle :=
  { outF := fun _ _ => [7], fwdSensF := fun _ _ _ => [3], adjSensF := fun _ _ _ => [2] }

/-- Concrete initial buffers for the C10 witness. -/
def exBufs : FcnBuffers :=
  { inBuf := [[0]], fwdSeedBuf := [[[0]]], adjSeedBuf := [[[0]]] }

/-- C10 witness: a single-input, single-output, one-direction call with a
prior adjoint-sensitivity value `[10]`. -/
theorem evaluate_adjsens_accumulate_witness :
    (([[some [(10:ℚ)]]] : List (List (Option Vec))).get? 0 = some [some [10]] ∧
     ([some [(10:ℚ)]] : List (Option Vec)).get? 0 = some (some [10]) ∧
     ([(10:ℚ)] : Vec) ≠ [] ∧
     (exF.adjSensF (passInputs [some [1]] [[some [1]]] [[some [1]]] exBufs) 0 0).length =
       ([(10:ℚ)] : Vec).length) ∧
    ((∃ rowA2,
      (Evaluation_evaluate exF [some [1]] [some [9]] [[some [1]]] [[some [0]]]
        [[some [1]]] [[some [10]]] exBufs).2.2.get? 0 = some rowA2 ∧
      rowA2.get? 0 = some (some (List.zipWith (fun a b => a + b) [(10:ℚ)]
        (exF.adjSensF (passInputs [some [1]] [[some [1]]] [[some [1]]] exBufs) 0 0)))) ∧
    (∀ i2 w, ([some [(9:ℚ)]] : List (Option Vec)).get? i2 = some (some w) → w ≠ [] →
      (Evaluation_evaluate exF [some [1]] [some [9]] [[some [1]]] [[some [0]]]
        [[some [1]]] [[some [10]]] exBufs).1.get? i2 =
        some (some (exF.outF (passInputs [some [1]] [[some [1]]] [[some [1]]] exBufs) i2))) ∧
    (∀ d2 i2 rowF u w,
      ([[some [(0:ℚ)]]] : List (List (Option Vec))).get? d2 = some rowF →
      rowF.get? i2 = some (some u) →
      ([some [(9:ℚ)]] : List (Option Vec)).get? i2 = some (some w) → w ≠ [] →
      ∃ rowF2,
        (Evaluation_evaluate exF [some [1]] [some [9]] [[some [1]]] [[some [0]]]
          [[some [1]]] [[some [10]]] exBufs).2.1.get? d2 = some rowF2 ∧
        rowF2.get? i2 = some (some (exF.fwdSensF
          (passInputs [some [1]] [[some [1]]] [[some [1]]] exBufs) i2 d2)))) :=
  ⟨⟨rfl, rfl, by simp, rfl⟩,
   evaluate_adjsens_accumulate exF exBufs [some [1]] [some [9]] [[some [1]]] [[some [0]]]
     [[some [1]]] [[some [10]]] 0 0 [10] [some [10]] rfl rfl (by simp) rfl⟩
